import Mathlib

/-!
Verification development for the GIS Automation Hub job-execution core.

Shallow embedding of:
- the browser-side execution simulator (src/src/hooks, useExecutionSimulator):
  status/logs state, execute over a list of (type, message, delay) triples,
  reset;
- the Node backend (src/public/node-backend/server.js): the in-memory job
  registry, POST /execute job creation, runPythonJob (script lookup, stdout
  line parsing, stderr handling, close handler), sendCallback, and the
  POST /browse directory-listing endpoint.

Modelling conventions:
- Timestamps (new Date().toISOString()) are modelled by a monotonically
  increasing natural-number clock; each handler invocation gets the next tick,
  rendered to a string where the source stores a string.
- JavaScript strings are Lean Strings; the line splitting, trimming and
  suffix tests the source performs are implemented on the underlying
  character lists so that concrete runs reduce inside the kernel.
- JSON.parse is modelled by jsonParse?, a fuel-bounded parser for the JSON
  fragment the system exchanges (null, booleans, integer numbers, strings
  with the common escapes, arrays, objects); fractional/exponent number
  forms and \u escapes are outside the model, which is conservative: the
  model rejects them, and no theorem below depends on such an input.
- The spawned process is modelled by its observable behaviour: the list of
  stdout/stderr data chunks followed by an exit code.
-/

/-- Log entry types of the system: the closed set info, success, warning,
error (src/src/types/gis.ts, LogEntry.type). -/
inductive LogType where
  | info
  | success
  | warning
  | error
deriving DecidableEq, Repr, BEq

/-- Render a LogType the way the source writes it in JSON log lines. -/
def LogType.toStr : LogType → String
  | .info => "info"
  | .success => "success"
  | .warning => "warning"
  | .error => "error"

/-- Job / execution statuses (src/src/types/gis.ts, ExecutionStatus): the
closed set pending, running, success, failed. -/
inductive JobStatus where
  | pending
  | running
  | success
  | failed
deriving DecidableEq, Repr, BEq

/-- JSON values, the payloads the backend parses from process stdout and
stores in a job log list. Numbers are modelled as integers (see the header
comment). -/
inductive Json where
  | null
  | bool (b : Bool)
  | num (n : Int)
  | str (s : String)
  | arr (xs : List Json)
  | obj (fields : List (String × Json))
deriving Repr

/-- Whitespace characters of the JSON grammar (the set JSON.parse skips). -/
def jsonWs (c : Char) : Bool :=
  c = ' ' || c = '\t' || c = '\n' || c = '\r'

/-- Drop leading JSON whitespace. -/
def skipWs (cs : List Char) : List Char :=
  cs.dropWhile jsonWs

/-- Split a character list on the newline character, keeping empty pieces,
exactly like the JavaScript split of a string on a newline: the result always
has one more piece than there are newline characters. -/
def splitNl : List Char → List (List Char)
  | [] => [[]]
  | c :: cs =>
    if c = '\n' then [] :: splitNl cs
    else
      match splitNl cs with
      | [] => [[c]]
      | p :: ps => (c :: p) :: ps

/-- Test whether a line is blank, that is, whether the JavaScript trim of it
is the empty (falsy) string: every character is whitespace. -/
def isBlankLine (cs : List Char) : Bool :=
  cs.all Char.isWhitespace

/-- Suffix test on strings through their character lists, modelling the
JavaScript endsWith used by the browse endpoint. -/
def strEndsWith (s suffix : String) : Bool :=
  decide (s.data.drop (s.data.length - suffix.data.length) = suffix.data)

/-- Decode one escaped character of a JSON string literal (the character
after the backslash). Unicode escapes are outside the model. -/
def unescapeChar (c : Char) : Option Char :=
  if c = '"' then some '"'
  else if c = '\\' then some '\\'
  else if c = '/' then some '/'
  else if c = 'n' then some '\n'
  else if c = 't' then some '\t'
  else if c = 'r' then some '\r'
  else if c = 'b' then some (Char.ofNat 8)
  else if c = 'f' then some (Char.ofNat 12)
  else none

/-- Parse the body of a JSON string literal (the opening quote already
consumed), returning the decoded characters and the rest of the input. -/
def parseStrChars : List Char → Option (List Char × List Char)
  | [] => none
  | c :: cs =>
    if c = '"' then some ([], cs)
    else if c = '\\' then
      match cs with
      | [] => none
      | e :: cs2 =>
        match unescapeChar e with
        | none => none
        | some d =>
          match parseStrChars cs2 with
          | none => none
          | some (body, rest) => some (d :: body, rest)
    else
      match parseStrChars cs with
      | none => none
      | some (body, rest) => some (c :: body, rest)

/-- Digit characters prefix of the input, as a number, with the raw digit
count (used to enforce the JSON grammar for numbers). -/
def parseDigits : List Char → Nat × Nat × List Char
  | [] => (0, 0, [])
  | c :: cs =>
    if c.isDigit then
      let r := parseDigits cs
      ((c.toNat - '0'.toNat) * 10 ^ r.2.1 + r.1, r.2.1 + 1, r.2.2)
    else (0, 0, c :: cs)

/-- Leading-zero check of the JSON number grammar: a digit run starting with
zero must be exactly the single digit zero. -/
def validDigitRun : List Char → Bool
  | '0' :: d :: _ => !d.isDigit
  | _ => true

/-- Parse a JSON number (integers only, see the header comment). -/
def parseNum (cs : List Char) : Option (Int × List Char) :=
  match cs with
  | '-' :: rest =>
    match rest with
    | [] => none
    | c :: _ =>
      if c.isDigit && validDigitRun rest then
        let r := parseDigits rest
        some (-(r.1 : Int), r.2.2)
      else none
  | c :: _ =>
    if c.isDigit && validDigitRun cs then
      let r := parseDigits cs
      some ((r.1 : Int), r.2.2)
    else none
  | [] => none

/-- Parser modes: a single value, the elements of an array after its opening
bracket, or the fields of an object after its opening brace. -/
inductive PMode where
  | val
  | elems (acc : List Json)
  | fields (acc : List (String × Json))

/-- Fuel-bounded JSON parser. Returns the parsed value and the unconsumed
input. Structural recursion on the fuel so concrete runs reduce in the
kernel. -/
def parseP : Nat → PMode → List Char → Option (Json × List Char)
  | 0, _, _ => none
  | fuel + 1, .val, cs =>
    match skipWs cs with
    | [] => none
    | c :: rest =>
      if c = 'n' then
        match rest with
        | 'u' :: 'l' :: 'l' :: r2 => some (.null, r2)
        | _ => none
      else if c = 't' then
        match rest with
        | 'r' :: 'u' :: 'e' :: r2 => some (.bool true, r2)
        | _ => none
      else if c = 'f' then
        match rest with
        | 'a' :: 'l' :: 's' :: 'e' :: r2 => some (.bool false, r2)
        | _ => none
      else if c = '"' then
        match parseStrChars rest with
        | none => none
        | some (body, r2) => some (.str (String.mk body), r2)
      else if c = '[' then
        match skipWs rest with
        | ']' :: r2 => some (.arr [], r2)
        | _ => parseP fuel (.elems []) rest
      else if c = '{' then
        match skipWs rest with
        | '}' :: r2 => some (.obj [], r2)
        | _ => parseP fuel (.fields []) rest
      else
        match parseNum (c :: rest) with
        | none => none
        | some (n, r2) => some (.num n, r2)
  | fuel + 1, .elems acc, cs =>
    match parseP fuel .val cs with
    | none => none
    | some (j, rest) =>
      match skipWs rest with
      | ',' :: r2 => parseP fuel (.elems (acc ++ [j])) r2
      | ']' :: r2 => some (.arr (acc ++ [j]), r2)
      | _ => none
  | fuel + 1, .fields acc, cs =>
    match skipWs cs with
    | '"' :: r =>
      match parseStrChars r with
      | none => none
      | some (key, r2) =>
        match skipWs r2 with
        | ':' :: r3 =>
          match parseP fuel .val r3 with
          | none => none
          | some (j, r4) =>
            match skipWs r4 with
            | ',' :: r5 => parseP fuel (.fields (acc ++ [(String.mk key, j)])) r5
            | '}' :: r5 => some (.obj (acc ++ [(String.mk key, j)]), r5)
            | _ => none
        | _ => none
    | _ => none

/-- Model of JSON.parse on one line of process output: parse a single JSON
value and require the remaining input to be whitespace only (JSON.parse
rejects trailing garbage). none models a thrown parse error. -/
def jsonParse? (line : List Char) : Option Json :=
  match parseP (2 * line.length + 2) .val line with
  | none => none
  | some (j, rest) => if skipWs rest = [] then some j else none

/-- Render the model clock the way the source renders new Date(): an opaque,
strictly increasing string per tick. -/
def tsStr (t : Nat) : String :=
  "ts-" ++ toString t

/-- Log entry object the backend constructs when it pushes a synthesized
entry: the JavaScript object with fields timestamp, type, message in source
order (server.js). -/
def mkEntry (t : Nat) (ty : LogType) (msg : String) : Json :=
  .obj [("timestamp", .str (tsStr t)), ("type", .str ty.toStr), ("message", .str msg)]

/-- Lookup of a field in a JSON object field list (first match). -/
def lookupField : List (String × Json) → String → Option Json
  | [], _ => none
  | (k, v) :: rest, key => if k = key then some v else lookupField rest key

/-- Field projection on a JSON value: defined only for objects. -/
def jsonField? (j : Json) (key : String) : Option Json :=
  match j with
  | .obj fields => lookupField fields key
  | _ => none

/-- Boolean test that a log value has the given message string (used to state
counterexamples about what the backend appended). -/
def jsonMsgIs (j : Json) (msg : String) : Bool :=
  match jsonField? j "message" with
  | some (.str s) => s = msg
  | _ => false

/-- Boolean test that a log value is of the given LogType. -/
def jsonTypeIs (j : Json) (ty : LogType) : Bool :=
  match jsonField? j "type" with
  | some (.str s) => s = ty.toStr
  | _ => false

/-- Modelled from the spec: the LogEntry wire shape test the specification
describes for stdout lines, a value with a string timestamp, a type drawn
from info, success, warning, error, and a string message. The source performs
no such check, so this definition follows the words of the specification and
is compared against the source behaviour. -/
def isLogEntryShape (j : Json) : Bool :=
  match jsonField? j "timestamp", jsonField? j "type", jsonField? j "message" with
  | some (.str _), some (.str ty), some (.str _) =>
    ty = "info" || ty = "success" || ty = "warning" || ty = "error"
  | _, _, _ => false

/-- Triple of the simulator input sequence: type, message, delay in
milliseconds (useExecutionSimulator.execute parameter). -/
structure SimTriple where
  type : LogType
  message : String
  delay : Nat
deriving DecidableEq, Repr

/-- Log entry of the browser LogEntry shape (src/src/types/gis.ts): id and
timestamp are modelled by the tick at which addLog ran. -/
structure SimEntry where
  id : Nat
  timestamp : Nat
  type : LogType
  message : String
deriving DecidableEq, Repr

/-- State held by useExecutionSimulator: the status and the accumulated log
list. -/
structure SimState where
  status : JobStatus
  logs : List SimEntry
deriving DecidableEq, Repr

/-- Loop body of useExecutionSimulator.execute: for each triple in order,
append one entry (addLog) and, when the entry type is error, set status
failed and return false at once; when the list is exhausted, set status
success and return true. The numeric argument is the tick used for the next
fresh id and timestamp. -/
def simGo : Nat → List SimEntry → List SimTriple → List SimEntry × JobStatus × Bool
  | _, logs, [] => (logs, .success, true)
  | n, logs, t :: rest =>
    let logs2 := logs ++ [⟨n, n, t.type, t.message⟩]
    if t.type = .error then (logs2, .failed, false)
    else simGo (n + 1) logs2 rest

/-- Model of useExecutionSimulator.execute: sets status running and clears
the previous logs, then runs the loop. The result records the final state and
the resolved boolean. -/
def simExecute (n : Nat) (sequence : List SimTriple) : SimState × Bool :=
  let r := simGo n [] sequence
  (⟨r.2.1, r.1⟩, r.2.2)

/-- Model of useExecutionSimulator.reset: sets status pending and clears the
logs, whatever the current state is. -/
def resetSim (s : SimState) : SimState :=
  { s with status := .pending, logs := [] }

/-- Length of the emitted portion of a simulator input sequence: up to and
including the first error triple, or the whole sequence when none is an
error. -/
def stopLen (sequence : List SimTriple) : Nat :=
  match sequence.findIdx? (fun t => decide (t.type = .error)) with
  | some i => i + 1
  | none => sequence.length

/-- Projection of a simulator log entry to its observable content. -/
def simProj (e : SimEntry) : LogType × String :=
  (e.type, e.message)

/-- Projection of an input triple to the content an appended entry carries. -/
def tripleProj (t : SimTriple) : LogType × String :=
  (t.type, t.message)

/-- Job record of the backend registry (server.js): the object stored in the
jobs map. result is referenced when the callback is sent but never assigned
by the source, so it stays none. Timestamps are model clock ticks. -/
structure Job where
  id : String
  jobType : String
  config : Json
  status : JobStatus
  logs : List Json
  startedAt : Nat
  completedAt : Option Nat
  result : Option Json
deriving Repr

/-- Observable behaviour of the spawned process: one constructor per data
event on a standard stream, each carrying the chunk text delivered to the
corresponding handler. -/
inductive ProcEvent where
  | out (chunk : String)
  | errOut (chunk : String)
deriving DecidableEq, Repr

/-- Resolution of the job id at submission: the caller-supplied id when it is
a truthy (non-empty) string, else the freshly generated one, modelling the
JavaScript expression jobId or uuidv4(). -/
def resolveId (reqId : Option String) (freshId : String) : String :=
  match reqId with
  | some s => if s = "" then freshId else s
  | none => freshId

/-- Script table of runPythonJob: the mapping from job type to the external
script file name; job types outside the table map to none. -/
def scriptMap (jobType : String) : Option String :=
  if jobType = "gdb_extraction" then some "gdb_extraction.py"
  else if jobType = "sde_conversion" then some "sde_conversion.py"
  else if jobType = "comparison" then some "comparison.py"
  else none

/-- Path of the mapped script, modelling path.join of the server directory,
"scripts" and the script name. -/
def scriptPath (scriptName : String) : String :=
  "scripts/" ++ scriptName

/-- Job record as the POST /execute handler creates and stores it: status
running, a single informational Job started entry, startedAt now. -/
def submitJob (t : Nat) (id jobType : String) (config : Json) : Job :=
  { id := id
    jobType := jobType
    config := config
    status := .running
    logs := [mkEntry t .info "Job started"]
    startedAt := t
    completedAt := none
    result := none }

/-- Entries the stdout data handler pushes for one chunk: split the chunk on
newlines, drop the lines whose trim is empty, and for each remaining line
push the JSON.parse result when parsing succeeds, else the raw line wrapped
as an info entry. -/
def stdoutChunkEntries (t : Nat) (chunk : String) : List Json :=
  ((splitNl chunk.data).filter (fun l => !isBlankLine l)).map (fun l =>
    match jsonParse? l with
    | some logEntry => logEntry
    | none => mkEntry t .info (String.mk l))

/-- Entries the stderr data handler pushes for one chunk: exactly one error
entry whose message is the whole chunk text. -/
def stderrChunkEntries (t : Nat) (chunk : String) : List Json :=
  [mkEntry t .error chunk]

/-- Entries one process data event appends to the job log list. -/
def eventEntries (t : Nat) : ProcEvent → List Json
  | .out chunk => stdoutChunkEntries t chunk
  | .errOut chunk => stderrChunkEntries t chunk

/-- Mutation of the job record by one process data event. -/
def stepEvent (t : Nat) (e : ProcEvent) (job : Job) : Job :=
  { job with logs := job.logs ++ eventEntries t e }

/-- Close handler of runPythonJob: set completedAt, then on exit code zero
set status success and append the informational completion entry, otherwise
set status failed and append the error entry recording the exit code. -/
def stepClose (t : Nat) (code : Int) (job : Job) : Job :=
  if code = 0 then
    { job with
      completedAt := some t
      status := .success
      logs := job.logs ++ [mkEntry t .info "Job completed successfully"] }
  else
    { job with
      completedAt := some t
      status := .failed
      logs := job.logs ++ [mkEntry t .error ("Job failed with exit code " ++ toString code)] }

/-- Failure mutation for an unknown job type: status failed plus one error
entry naming the job type. -/
def stepUnknownType (t : Nat) (job : Job) : Job :=
  { job with
    status := .failed
    logs := job.logs ++ [mkEntry t .error ("Unknown job type: " ++ job.jobType)] }

/-- Failure mutation for a mapped script that is not on disk: status failed
plus one error entry naming the missing path. -/
def stepMissingScript (t : Nat) (scriptName : String) (job : Job) : Job :=
  { job with
    status := .failed
    logs := job.logs ++ [mkEntry t .error ("Script not found: " ++ scriptPath scriptName)] }

/-- Progress entry appended right before the process is spawned. -/
def stepExecuting (t : Nat) (scriptName : String) (job : Job) : Job :=
  { job with logs := job.logs ++ [mkEntry t .info ("Executing " ++ scriptName ++ "...")] }

/-- Payload of one sendCallback invocation: the job id, the status and log
list at the time of the call, and the (never assigned) result. -/
structure CallbackPayload where
  jobId : String
  status : JobStatus
  logs : List Json
  result : Option Json
deriving Repr

/-- Submission together with the environment facts and process behaviour
that determine one backend job execution: the optional caller-supplied id,
the fresh id the generator would produce, the submitted job type and config,
the optional callback URL, whether the mapped script file exists, and the
process behaviour (data events, then the exit code). -/
structure RunInput where
  reqId : Option String
  freshId : String
  jobType : String
  config : Json
  callbackUrl : Option String
  scriptExists : Bool
  events : List ProcEvent
  exitCode : Int

/-- Evolution of a job record under the process data events, with one clock
tick per event: returns the intermediate snapshots (one per event, each the
record value after that event) and the final record. -/
def procRun (t : Nat) (job : Job) : List ProcEvent → List Job × Job
  | [] => ([], job)
  | e :: es =>
    let j2 := stepEvent t e job
    let r := procRun (t + 1) j2 es
    (j2 :: r.1, r.2)

/-- Result of one backend job execution: every successive value the stored
job record takes (the first element is the record as created by the POST
/execute handler), the final record, and the sendCallback invocations in
order. -/
structure RunResult where
  states : List Job
  final : Job
  callbacks : List CallbackPayload
deriving Repr

/-- Callback payload for a job record at the moment sendCallback is called. -/
def payloadOf (job : Job) : CallbackPayload :=
  ⟨job.id, job.status, job.logs, job.result⟩

/-- Full model of one job execution: the POST /execute handler creates the
record, then runPythonJob looks the job type up in the script table, checks
the script file, appends the progress entry, replays the process data events
and runs the close handler; each terminal path calls sendCallback exactly
once with the status and logs at that point. -/
def runPythonJob (t0 : Nat) (inp : RunInput) : RunResult :=
  let j0 := submitJob t0 (resolveId inp.reqId inp.freshId) inp.jobType inp.config
  match scriptMap inp.jobType with
  | none =>
    let j1 := stepUnknownType (t0 + 1) j0
    ⟨[j0, j1], j1, [payloadOf j1]⟩
  | some scriptName =>
    if inp.scriptExists then
      let j1 := stepExecuting (t0 + 1) scriptName j0
      let r := procRun (t0 + 2) j1 inp.events
      let j2 := stepClose (t0 + 2 + inp.events.length) inp.exitCode r.2
      ⟨j0 :: j1 :: r.1 ++ [j2], j2, [payloadOf j2]⟩
    else
      let j1 := stepMissingScript (t0 + 1) scriptName j0
      ⟨[j0, j1], j1, [payloadOf j1]⟩

/-- Outcome of the one fetch a sendCallback invocation performs: a response
(with its HTTP status, which the source never inspects) or a thrown network
error. -/
inductive FetchOutcome where
  | ok (httpStatus : Nat)
  | err (msg : String)
deriving DecidableEq, Repr

/-- Record of one outbound HTTP POST the relay actually issues. -/
structure RelayCall where
  url : String
  payload : CallbackPayload
deriving Repr

/-- Model of sendCallback: with a falsy (absent or empty) callback URL it
returns at once with no fetch; otherwise it issues exactly one fetch and, when
that fetch throws, catches the error and logs it to the console. The result
is the list of issued fetches and the console error lines; the function is
total, so no exception escapes it, and it never touches a job record (no job
is in scope). -/
def sendCallback (callbackUrl : Option String) (p : CallbackPayload) (fo : FetchOutcome) :
    List RelayCall × List String :=
  match callbackUrl with
  | none => ([], [])
  | some u =>
    if u = "" then ([], [])
    else
      ([⟨u, p⟩],
        match fo with
        | .ok _ => []
        | .err m => ["Failed to send callback: " ++ m])

/-- Whole-system run: the job execution followed by the delivery of each of
its callback invocations (there is exactly one per terminal job). The final
job record is carried through unchanged, mirroring that sendCallback runs
after the job state is finalized and has no access to mutate it. -/
def systemRun (t0 : Nat) (inp : RunInput) (fo : FetchOutcome) :
    Job × List RelayCall × List String :=
  let r := runPythonJob t0 inp
  let sent := (r.callbacks.map (fun p => sendCallback inp.callbackUrl p fo))
  (r.final, (sent.map Prod.fst).flatten, (sent.map Prod.snd).flatten)

/-- Directory entry as readdirSync with file types reports it: the name and
whether it is a directory. -/
structure FsEntry where
  name : String
  isDir : Bool
deriving DecidableEq, Repr

/-- Item of the browse response: name, joined path and classified type. -/
structure BrowseItem where
  name : String
  path : String
  type : String
deriving DecidableEq, Repr

/-- Classification the browse handler computes: gdb when the name ends in
.gdb, else sde when it ends in .sde, else folder for a directory, else
file. -/
def classifyEntry (e : FsEntry) : String :=
  if strEndsWith e.name ".gdb" then "gdb"
  else if strEndsWith e.name ".sde" then "sde"
  else if e.isDir then "folder"
  else "file"

/-- Filter of the browse handler, phrased as the keep condition equivalent to
its three continue statements: a gdb request keeps directories and
.gdb-suffixed names, an sde request keeps .sde-suffixed names, a folder
request keeps directories, and any other request keeps everything. -/
def browseKeep (reqType : Option String) (e : FsEntry) : Bool :=
  if reqType = some "gdb" && !e.isDir && !strEndsWith e.name ".gdb" then false
  else if reqType = some "sde" && !strEndsWith e.name ".sde" then false
  else if reqType = some "folder" && !e.isDir then false
  else true

/-- Lexicographic three-way comparison of character lists by code point,
modelling localeCompare on the name strings. -/
def lexCmp : List Char → List Char → Int
  | [], [] => 0
  | [], _ :: _ => -1
  | _ :: _, [] => 1
  | a :: as, b :: bs =>
    if a < b then -1
    else if b < a then 1
    else lexCmp as bs

/-- Comparator of the browse handler sort: folder-typed items first, then the
name comparison. -/
def browseCmp (a b : BrowseItem) : Int :=
  if a.type = "folder" && !(b.type = "folder") then -1
  else if !(a.type = "folder") && b.type = "folder" then 1
  else lexCmp a.name.data b.name.data

/-- Order relation induced by the browse comparator: a sorts no later than b
exactly when the comparator is nonpositive. -/
def browseLe (a b : BrowseItem) : Prop :=
  browseCmp a b ≤ 0

instance : DecidableRel browseLe :=
  fun a b => inferInstanceAs (Decidable (browseCmp a b ≤ 0))

/-- Path the browse handler reports for an entry, modelling path.join with
the forward separator. -/
def joinPath (base name : String) : String :=
  base ++ "/" ++ name

/-- Browse item built for one kept entry. -/
def browseItemOf (base : String) (e : FsEntry) : BrowseItem :=
  ⟨e.name, joinPath base e.name, classifyEntry e⟩

/-- Model of the POST /browse handler on a directory listing: keep the
entries the filter admits, build their items in listing order, and sort with
the comparator. The JavaScript sort is stable, which the stable insertion
sort models. -/
def browseRun (base : String) (reqType : Option String) (items : List FsEntry) :
    List BrowseItem :=
  ((items.filter (browseKeep reqType)).map (browseItemOf base)).insertionSort browseLe

/-- Entries a list of process data events appends in total, one clock tick
per event. -/
def eventsEntries : Nat → List ProcEvent → List Json
  | _, [] => []
  | t, e :: es => eventEntries t e ++ eventsEntries (t + 1) es

/-- Final entry the close handler appends, as a function of the exit code. -/
def closeEntry (t : Nat) (code : Int) : Json :=
  if code = 0 then mkEntry t .info "Job completed successfully"
  else mkEntry t .error ("Job failed with exit code " ++ toString code)

/-- Transitions the specification state machine admits on a job status:
stay, pending to running, or running to a terminal status. Neither terminal
status admits a transition to anything but itself. -/
def statusStep (a b : JobStatus) : Prop :=
  a = b ∨ (a = .pending ∧ b = .running) ∨ (a = .running ∧ (b = .success ∨ b = .failed))

/-- Relation between successive job record values: the later log list
extends the earlier one by some appended suffix. -/
def logsExtend (a b : Job) : Prop :=
  ∃ d, b.logs = a.logs ++ d

/-- Job record as created for a given submission. -/
def jobCreated (t0 : Nat) (inp : RunInput) : Job :=
  submitJob t0 (resolveId inp.reqId inp.freshId) inp.jobType inp.config

/-- Job record at the moment the close handler fires, for a submission whose
job type maps to the script named s. -/
def preCloseJob (t0 : Nat) (inp : RunInput) (s : String) : Job :=
  (procRun (t0 + 2) (stepExecuting (t0 + 1) s (jobCreated t0 inp)) inp.events).2

/-- Concrete submission whose process writes one plain line and exits 2. -/
def closeInput : RunInput :=
  ⟨none, "job-1", "comparison", Json.null, some "http://cb", true, [.out "x\n"], 2⟩

/-- Concrete submission with a job type outside the script table. -/
def unknownTypeInput : RunInput :=
  ⟨none, "job-2", "bogus", Json.null, none, true, [], 0⟩

/-- Concrete submission whose process stdout arrives as the two chunks
"he" and "llo" plus a newline, together one line. -/
def chunkPairInput : RunInput :=
  ⟨none, "job-3", "gdb_extraction", Json.null, none, true, [.out "he", .out "llo\n"], 0⟩

/-- Concrete submission whose process writes the JSON line 42 to stdout and
a two-line chunk to stderr. -/
def jsonLineInput : RunInput :=
  ⟨none, "job-4", "sde_conversion", Json.null, none, true, [.out "42\n", .errOut "a\nb\n"], 0⟩

/-- Concrete submission with a caller-supplied id, one stderr chunk and a
non-zero exit. -/
def registryInput : RunInput :=
  ⟨some "custom-id", "fresh", "comparison", Json.bool true, some "http://cb", true,
    [.errOut "boom\n"], 1⟩

/-- Appending behaviour of the execute loop: running it with an initial
accumulated log list prepends that list to what a run from the empty list
produces, and the status and resolved boolean do not depend on the
accumulator. -/
theorem simGo_append (sequence : List SimTriple) :
    ∀ n logs, (simGo n logs sequence).1 = logs ++ (simGo n [] sequence).1
      ∧ (simGo n logs sequence).2 = (simGo n [] sequence).2 := by
  induction sequence with
  | nil => intro n logs; simp [simGo]
  | cons t rest ih =>
    intro n logs
    by_cases h : t.type = .error
    · simp [simGo, h]
    · simp only [simGo, if_neg h, List.nil_append]
      rcases ih (n + 1) (logs ++ [⟨n, n, t.type, t.message⟩]) with ⟨h1, h2⟩
      rcases ih (n + 1) ([⟨n, n, t.type, t.message⟩]) with ⟨h3, h4⟩
      exact ⟨by rw [h1, h3, List.append_assoc], by rw [h2, h4]⟩

/-- Recursion equation of stopLen on a non-error head. -/
theorem stopLen_cons_of_ne (t : SimTriple) (rest : List SimTriple) (h : t.type ≠ .error) :
    stopLen (t :: rest) = stopLen rest + 1 := by
  simp only [stopLen, List.findIdx?_cons, decide_eq_true_eq, h, if_false]
  cases hf : rest.findIdx? (fun t => decide (t.type = .error)) with
  | none => simp [hf]
  | some i => simp [hf]

/-- Recursion equation of stopLen on an error head. -/
theorem stopLen_cons_of_eq (t : SimTriple) (rest : List SimTriple) (h : t.type = .error) :
    stopLen (t :: rest) = 1 := by
  simp [stopLen, List.findIdx?_cons, h]

/-- Bound of the emitted-portion length by the sequence length. -/
theorem stopLen_le_length (sequence : List SimTriple) : stopLen sequence ≤ sequence.length := by
  induction sequence with
  | nil => simp [stopLen]
  | cons t rest ih =>
    by_cases h : t.type = .error
    · rw [stopLen_cons_of_eq t rest h]; simp
    · rw [stopLen_cons_of_ne t rest h]; simpa using ih

/-- C2. For every input sequence, the simulator execute appends exactly one
entry per triple, in order, up to and including the first error triple
(stopLen); it resolves true and ends in success exactly when no triple is an
error, else it resolves false and ends in failed. -/
theorem claim_C2_simulator_execute (n : Nat) (sequence : List SimTriple) :
    ((simExecute n sequence).1.logs.map simProj
        = (sequence.take (stopLen sequence)).map tripleProj)
    ∧ (simExecute n sequence).1.logs.length = stopLen sequence
    ∧ (simExecute n sequence).2 = !sequence.any (fun t => decide (t.type = .error))
    ∧ (simExecute n sequence).1.status =
        (if sequence.any (fun t => decide (t.type = .error)) then JobStatus.failed
         else JobStatus.success) := by
  have main : ∀ (s : List SimTriple) (m : Nat),
      ((simExecute m s).1.logs.map simProj = (s.take (stopLen s)).map tripleProj)
      ∧ (simExecute m s).2 = !s.any (fun t => decide (t.type = .error))
      ∧ (simExecute m s).1.status =
          (if s.any (fun t => decide (t.type = .error)) then JobStatus.failed
           else JobStatus.success) := by
    intro s
    induction s with
    | nil => intro m; simp [simExecute, simGo, stopLen]
    | cons t rest ih =>
      intro m
      by_cases h : t.type = .error
      · rw [stopLen_cons_of_eq t rest h]
        simp [simExecute, simGo, h, simProj, tripleProj]
      · rw [stopLen_cons_of_ne t rest h]
        rcases ih (m + 1) with ⟨ih1, ih2, ih3⟩
        have hs := simGo_append rest (m + 1) [⟨m, m, t.type, t.message⟩]
        simp only [simExecute, simGo, if_neg h, List.nil_append] at *
        refine ⟨?_, ?_, ?_⟩
        · rw [hs.1, List.map_append, ih1]
          simp [simProj, tripleProj, List.take_succ_cons]
        · rw [hs.2, ih2]
          simp [h]
        · rw [hs.2]
          simp only [List.any_cons, decide_eq_true_eq]
          simp [h, ih3]
  have h2 : (simExecute n sequence).1.logs.length = stopLen sequence := by
    have := (main sequence n).1
    have hlen := congrArg List.length this
    simp only [List.length_map, List.length_take] at hlen
    rw [hlen, Nat.min_eq_left (stopLen_le_length sequence)]
  exact ⟨(main sequence n).1, h2, (main sequence n).2.1, (main sequence n).2.2⟩

/-- C8. Reset always yields status pending with an empty log list, whatever
the prior simulator state. -/
theorem claim_C8_reset (s : SimState) :
    (resetSim s).status = .pending ∧ (resetSim s).logs = [] :=
  ⟨rfl, rfl⟩

/-- Final record of the event replay: the starting record with the entries of
all events appended; no other field changes. -/
theorem procRun_final (es : List ProcEvent) :
    ∀ t j, (procRun t j es).2 = { j with logs := j.logs ++ eventsEntries t es } := by
  induction es with
  | nil => intro t j; simp [procRun, eventsEntries]
  | cons e rest ih =>
    intro t j
    simp only [procRun, eventsEntries]
    rw [ih (t + 1) (stepEvent t e j)]
    simp [stepEvent]

/-- Last snapshot of the event replay, starting record included, is the
final record. -/
theorem procRun_getLast (es : List ProcEvent) :
    ∀ t j, (j :: (procRun t j es).1).getLast? = some (procRun t j es).2 := by
  induction es with
  | nil => intro t j; simp [procRun]
  | cons e rest ih =>
    intro t j
    simp only [procRun]
    rw [List.getLast?_cons_cons]
    exact ih (t + 1) (stepEvent t e j)

/-- Chain of any relation that holds across one data event, along the
snapshots of the event replay. -/
theorem procRun_chain (R : Job → Job → Prop) (hR : ∀ t e j, R j (stepEvent t e j))
    (es : List ProcEvent) :
    ∀ t j, List.Chain' R (j :: (procRun t j es).1) := by
  induction es with
  | nil => intro t j; simp [procRun]
  | cons e rest ih =>
    intro t j
    simp only [procRun]
    rw [List.chain'_cons]
    exact ⟨hR t e j, ih (t + 1) (stepEvent t e j)⟩

/-- Every snapshot of the event replay is the starting record with some
suffix appended to its logs; in particular every other field is unchanged. -/
theorem procRun_mem (es : List ProcEvent) :
    ∀ t j x, x ∈ (procRun t j es).1 → ∃ d, x = { j with logs := j.logs ++ d } := by
  induction es with
  | nil => intro t j x hx; simp [procRun] at hx
  | cons e rest ih =>
    intro t j x hx
    simp only [procRun, List.mem_cons] at hx
    rcases hx with hx | hx
    · exact ⟨eventEntries t e, by rw [hx]; simp [stepEvent]⟩
    · rcases ih (t + 1) (stepEvent t e j) x hx with ⟨d, hd⟩
      exact ⟨eventEntries t e ++ d, by rw [hd]; simp [stepEvent]⟩

/-- C1. For every submission whose job type maps to a script that exists (so
a process is spawned and its close handler fires): on exit code zero status
becomes success with one final informational entry appended, otherwise
failed with one final error entry naming the exit code; completedAt is set
at close, was never set before, and is at least startedAt; and sendCallback
is invoked exactly once, with the final status and the full log list. -/
theorem runPythonJob_close_spec (t0 : Nat) (inp : RunInput) (s : String)
    (hmap : scriptMap inp.jobType = some s) (hex : inp.scriptExists = true) :
    (inp.exitCode = 0 →
      (runPythonJob t0 inp).final.status = .success ∧
      (runPythonJob t0 inp).final.logs = (preCloseJob t0 inp s).logs
        ++ [mkEntry (t0 + 2 + inp.events.length) .info "Job completed successfully"])
    ∧ (inp.exitCode ≠ 0 →
      (runPythonJob t0 inp).final.status = .failed ∧
      (runPythonJob t0 inp).final.logs = (preCloseJob t0 inp s).logs
        ++ [mkEntry (t0 + 2 + inp.events.length) .error
              ("Job failed with exit code " ++ toString inp.exitCode)])
    ∧ (runPythonJob t0 inp).final.completedAt = some (t0 + 2 + inp.events.length)
    ∧ (runPythonJob t0 inp).final.startedAt = t0
    ∧ (runPythonJob t0 inp).final.startedAt ≤ t0 + 2 + inp.events.length
    ∧ (∀ j ∈ (runPythonJob t0 inp).states.dropLast, j.completedAt = none)
    ∧ (runPythonJob t0 inp).callbacks
        = [⟨(runPythonJob t0 inp).final.id, (runPythonJob t0 inp).final.status,
            (runPythonJob t0 inp).final.logs, (runPythonJob t0 inp).final.result⟩] := by
  have hrun : runPythonJob t0 inp =
      ⟨jobCreated t0 inp :: stepExecuting (t0 + 1) s (jobCreated t0 inp)
          :: (procRun (t0 + 2) (stepExecuting (t0 + 1) s (jobCreated t0 inp)) inp.events).1
          ++ [stepClose (t0 + 2 + inp.events.length) inp.exitCode (preCloseJob t0 inp s)],
        stepClose (t0 + 2 + inp.events.length) inp.exitCode (preCloseJob t0 inp s),
        [payloadOf (stepClose (t0 + 2 + inp.events.length) inp.exitCode (preCloseJob t0 inp s))]⟩ := by
    simp [runPythonJob, hmap, hex, preCloseJob, jobCreated]
  have hpre : (preCloseJob t0 inp s).completedAt = none := by
    rw [preCloseJob, procRun_final]
    rfl
  have hprest : (preCloseJob t0 inp s).startedAt = t0 := by
    rw [preCloseJob, procRun_final]
    rfl
  rw [hrun]
  refine ⟨?_, ?_, ?_, ?_, ?_, ?_, ?_⟩
  · intro h0
    simp [stepClose, h0]
  · intro h0
    simp [stepClose, h0]
  · by_cases h0 : inp.exitCode = 0 <;> simp [stepClose, h0]
  · by_cases h0 : inp.exitCode = 0 <;> simp [stepClose, h0, hprest]
  · by_cases h0 : inp.exitCode = 0 <;> simp [stepClose, h0, hprest] <;> omega
  · intro j hj
    rw [show (jobCreated t0 inp :: stepExecuting (t0 + 1) s (jobCreated t0 inp)
          :: (procRun (t0 + 2) (stepExecuting (t0 + 1) s (jobCreated t0 inp)) inp.events).1
          ++ [stepClose (t0 + 2 + inp.events.length) inp.exitCode (preCloseJob t0 inp s)])
        = ((jobCreated t0 inp :: stepExecuting (t0 + 1) s (jobCreated t0 inp)
          :: (procRun (t0 + 2) (stepExecuting (t0 + 1) s (jobCreated t0 inp)) inp.events).1)
          ++ [stepClose (t0 + 2 + inp.events.length) inp.exitCode (preCloseJob t0 inp s)])
        from by simp, List.dropLast_concat] at hj
    simp only [List.mem_cons] at hj
    rcases hj with hj | hj | hj
    · rw [hj]; rfl
    · rw [hj]; rfl
    · rcases procRun_mem inp.events (t0 + 2) (stepExecuting (t0 + 1) s (jobCreated t0 inp)) j hj
        with ⟨d, hd⟩
      rw [hd]
      rfl
  · rfl

/-- Witness instantiating the close-handler theorem: the concrete submission
closeInput maps to the comparison script, the script exists, and the run
(exit code 2) ends failed with completedAt set at tick 3 and one callback. -/
theorem runPythonJob_close_spec_witness :
    scriptMap closeInput.jobType = some "comparison.py"
    ∧ closeInput.scriptExists = true
    ∧ (runPythonJob 0 closeInput).final.status = .failed
    ∧ (runPythonJob 0 closeInput).final.completedAt = some 3
    ∧ (runPythonJob 0 closeInput).callbacks.length = 1 := by
  have h := runPythonJob_close_spec 0 closeInput "comparison.py" rfl rfl
  refine ⟨rfl, rfl, (h.2.1 (by decide)).1, ?_, ?_⟩
  · exact h.2.2.1
  · rw [h.2.2.2.2.2.2]
    rfl

/-- Chain of a relation along every successive pair of values the stored job
record takes during one run, given that the relation holds across each
mutation the source performs (the close mutation only ever fires on a record
still in running status). -/
theorem runPythonJob_chain (R : Job → Job → Prop)
    (hstep : ∀ t e j, R j (stepEvent t e j))
    (hexec : ∀ t s j, R j (stepExecuting t s j))
    (hunknown : ∀ t j, j.status = .running → R j (stepUnknownType t j))
    (hmissing : ∀ t s j, j.status = .running → R j (stepMissingScript t s j))
    (hclose : ∀ t c j, j.status = .running → R j (stepClose t c j))
    (t0 : Nat) (inp : RunInput) :
    List.Chain' R (runPythonJob t0 inp).states := by
  cases hmap : scriptMap inp.jobType with
  | none =>
    simp only [runPythonJob, hmap]
    exact List.chain'_cons.mpr ⟨hunknown _ _ rfl, List.chain'_singleton _⟩
  | some s =>
    by_cases hex : inp.scriptExists
    · simp only [runPythonJob, hmap, hex, if_true]
      rw [show (submitJob t0 (resolveId inp.reqId inp.freshId) inp.jobType inp.config
            :: stepExecuting (t0 + 1) s (submitJob t0 (resolveId inp.reqId inp.freshId) inp.jobType inp.config)
            :: (procRun (t0 + 2) (stepExecuting (t0 + 1) s (submitJob t0 (resolveId inp.reqId inp.freshId) inp.jobType inp.config)) inp.events).1
            ++ [stepClose (t0 + 2 + inp.events.length) inp.exitCode
                  (procRun (t0 + 2) (stepExecuting (t0 + 1) s (submitJob t0 (resolveId inp.reqId inp.freshId) inp.jobType inp.config)) inp.events).2])
          = ((submitJob t0 (resolveId inp.reqId inp.freshId) inp.jobType inp.config
            :: stepExecuting (t0 + 1) s (submitJob t0 (resolveId inp.reqId inp.freshId) inp.jobType inp.config)
            :: (procRun (t0 + 2) (stepExecuting (t0 + 1) s (submitJob t0 (resolveId inp.reqId inp.freshId) inp.jobType inp.config)) inp.events).1)
            ++ [stepClose (t0 + 2 + inp.events.length) inp.exitCode
                  (procRun (t0 + 2) (stepExecuting (t0 + 1) s (submitJob t0 (resolveId inp.reqId inp.freshId) inp.jobType inp.config)) inp.events).2])
          from by simp]
      refine List.Chain'.append ?_ (List.chain'_singleton _) ?_
      · exact List.chain'_cons.mpr ⟨hexec _ _ _, procRun_chain R hstep inp.events _ _⟩
      · intro x hx y hy
        rw [List.getLast?_cons_cons, procRun_getLast] at hx
        simp only [Option.mem_def, Option.some_inj, List.head?_cons] at hx hy
        subst hx
        subst hy
        apply hclose
        rw [procRun_final]
        rfl
    · simp only [runPythonJob, hmap, hex, if_false]
      exact List.chain'_cons.mpr ⟨hmissing _ _ _ rfl, List.chain'_singleton _⟩

/-- Status of the close handler result. -/
theorem stepClose_status (t : Nat) (c : Int) (j : Job) :
    (stepClose t c j).status = (if c = 0 then JobStatus.success else JobStatus.failed) := by
  by_cases h : c = 0 <;> simp [stepClose, h]

/-- C7. Along every run, the sequence of statuses the stored job record
takes only follows the specification state machine pending, running, then a
terminal status: each adjacent pair either stays equal or moves forward,
and neither terminal status admits any move away from itself. -/
theorem job_status_transitions (t0 : Nat) (inp : RunInput) :
    List.Chain' statusStep ((runPythonJob t0 inp).states.map Job.status) := by
  rw [List.chain'_map]
  apply runPythonJob_chain
  · intro t e j
    exact Or.inl rfl
  · intro t s j
    exact Or.inl rfl
  · intro t j hj
    exact Or.inr (Or.inr ⟨hj, Or.inr rfl⟩)
  · intro t s j hj
    exact Or.inr (Or.inr ⟨hj, Or.inr rfl⟩)
  · intro t c j hj
    rw [stepClose_status]
    by_cases h : c = 0
    · exact Or.inr (Or.inr ⟨hj, Or.inl (by simp [h])⟩)
    · exact Or.inr (Or.inr ⟨hj, Or.inr (by simp [h])⟩)

/-- Every value the stored job record takes during one run keeps the log
list of the record as created as a prefix, keeps startedAt, and never has
status pending. -/
theorem runPythonJob_states_mem (t0 : Nat) (inp : RunInput) :
    ∀ x ∈ (runPythonJob t0 inp).states,
      (∃ d, x.logs = (jobCreated t0 inp).logs ++ d)
      ∧ x.status ≠ .pending ∧ x.startedAt = t0 := by
  intro x hx
  cases hmap : scriptMap inp.jobType with
  | none =>
    simp only [runPythonJob, hmap] at hx
    rw [List.mem_cons, List.mem_singleton] at hx
    rcases hx with rfl | rfl
    · exact ⟨⟨[], by simp [jobCreated]⟩, by simp [submitJob], rfl⟩
    · refine ⟨⟨[mkEntry (t0 + 1) .error ("Unknown job type: " ++ inp.jobType)], ?_⟩,
        by simp [stepUnknownType, submitJob], rfl⟩
      simp [stepUnknownType, submitJob, jobCreated]
  | some s =>
    cases hex : inp.scriptExists with
    | false =>
      simp only [runPythonJob, hmap, hex, Bool.false_eq_true, if_false] at hx
      rw [List.mem_cons, List.mem_singleton] at hx
      rcases hx with rfl | rfl
      · exact ⟨⟨[], by simp [jobCreated]⟩, by simp [submitJob], rfl⟩
      · refine ⟨⟨[mkEntry (t0 + 1) .error ("Script not found: " ++ scriptPath s)], ?_⟩,
          by simp [stepMissingScript, submitJob], rfl⟩
        simp [stepMissingScript, submitJob, jobCreated]
    | true =>
      simp only [runPythonJob, hmap, hex, if_true] at hx
      rw [List.mem_append, List.mem_cons, List.mem_cons, List.mem_singleton] at hx
      rcases hx with (rfl | rfl | hx) | rfl
      · exact ⟨⟨[], by simp [jobCreated]⟩, by simp [submitJob], rfl⟩
      · exact ⟨⟨[mkEntry (t0 + 1) .info ("Executing " ++ s ++ "...")],
          by simp [stepExecuting, submitJob, jobCreated]⟩, by simp [stepExecuting, submitJob], rfl⟩
      · rcases procRun_mem inp.events (t0 + 2) _ x hx with ⟨d, hd⟩
        subst hd
        refine ⟨⟨[mkEntry (t0 + 1) .info ("Executing " ++ s ++ "...")] ++ d, ?_⟩,
          by simp [stepExecuting, submitJob], rfl⟩
        simp [stepExecuting, submitJob, jobCreated]
      · have hpre := procRun_final inp.events (t0 + 2)
          (stepExecuting (t0 + 1) s
            (submitJob t0 (resolveId inp.reqId inp.freshId) inp.jobType inp.config))
        by_cases h0 : inp.exitCode = 0
        · refine ⟨⟨[mkEntry (t0 + 1) .info ("Executing " ++ s ++ "...")]
              ++ eventsEntries (t0 + 2) inp.events
              ++ [mkEntry (t0 + 2 + inp.events.length) .info "Job completed successfully"], ?_⟩,
            ?_, ?_⟩
          · rw [stepClose, if_pos h0, hpre]
            simp [stepExecuting, submitJob, jobCreated]
          · simp [stepClose, h0]
          · rw [stepClose, if_pos h0, hpre]
            simp [stepExecuting, submitJob]
        · refine ⟨⟨[mkEntry (t0 + 1) .info ("Executing " ++ s ++ "...")]
              ++ eventsEntries (t0 + 2) inp.events
              ++ [mkEntry (t0 + 2 + inp.events.length) .error
                    ("Job failed with exit code " ++ toString inp.exitCode)], ?_⟩,
            ?_, ?_⟩
          · rw [stepClose, if_neg h0, hpre]
            simp [stepExecuting, submitJob, jobCreated]
          · simp [stepClose, h0]
          · rw [stepClose, if_neg h0, hpre]
            simp [stepExecuting, submitJob]

/-- C10. Every value the stored job record ever takes has a non-empty log
list whose first entry is the informational Job started entry; the record is
created in running status (pending is never stored, so never observable
through the status read); and successive values only append to the log
list. -/
theorem registry_record_invariants (t0 : Nat) (inp : RunInput) (i : Nat)
    (h : i < (runPythonJob t0 inp).states.length) :
    ((runPythonJob t0 inp).states.get ⟨i, h⟩).logs.head?
        = some (mkEntry t0 .info "Job started")
    ∧ ((runPythonJob t0 inp).states.get ⟨i, h⟩).logs ≠ []
    ∧ ((runPythonJob t0 inp).states.get ⟨i, h⟩).status ≠ .pending
    ∧ (runPythonJob t0 inp).states.head? = some (jobCreated t0 inp)
    ∧ (jobCreated t0 inp).status = .running
    ∧ List.Chain' logsExtend (runPythonJob t0 inp).states := by
  rcases runPythonJob_states_mem t0 inp _ (List.get_mem _ i h) with ⟨⟨d, hd⟩, hstat, _⟩
  refine ⟨?_, ?_, hstat, ?_, rfl, ?_⟩
  · rw [hd]
    simp [jobCreated, submitJob]
  · rw [hd]
    simp [jobCreated, submitJob]
  · cases hmap : scriptMap inp.jobType with
    | none => simp [runPythonJob, hmap, jobCreated]
    | some s =>
      cases hex : inp.scriptExists with
      | false => simp [runPythonJob, hmap, hex, jobCreated]
      | true => simp [runPythonJob, hmap, hex, jobCreated]
  · apply runPythonJob_chain
    · intro t e j
      exact ⟨eventEntries t e, rfl⟩
    · intro t s j
      exact ⟨[mkEntry t .info ("Executing " ++ s ++ "...")], rfl⟩
    · intro t j _
      exact ⟨[mkEntry t .error ("Unknown job type: " ++ j.jobType)], rfl⟩
    · intro t s j _
      exact ⟨[mkEntry t .error ("Script not found: " ++ scriptPath s)], rfl⟩
    · intro t c j _
      by_cases h0 : c = 0
      · exact ⟨[mkEntry t .info "Job completed successfully"], by rw [stepClose, if_pos h0]⟩
      · exact ⟨[mkEntry t .error ("Job failed with exit code " ++ toString c)],
          by rw [stepClose, if_neg h0]⟩

/-- Witness instantiating the registry invariants at the concrete run
registryInput and the record value at index zero. -/
theorem registry_record_invariants_witness :
    0 < (runPythonJob 0 registryInput).states.length
    ∧ (runPythonJob 0 registryInput).states.head? = some (jobCreated 0 registryInput)
    ∧ List.Chain' logsExtend (runPythonJob 0 registryInput).states := by
  have h : 0 < (runPythonJob 0 registryInput).states.length := by decide
  have hmain := registry_record_invariants 0 registryInput 0 h
  exact ⟨h, hmain.2.2.2.1, hmain.2.2.2.2.2⟩

/-- C3 (amended). A submission whose job type is outside the script table
spawns nothing: the run has exactly the two record values, created running
(with the single Job started entry) and then failed, the final record has
exactly two log entries (the Job started entry plus one error entry naming
the job type), and sendCallback is invoked once. The status pending never
occurs. -/
theorem submit_unknown_type_amended (t0 : Nat) (inp : RunInput)
    (h : scriptMap inp.jobType = none) :
    (runPythonJob t0 inp).states.map Job.status = [.running, .failed]
    ∧ (runPythonJob t0 inp).final.logs
        = [mkEntry t0 .info "Job started",
           mkEntry (t0 + 1) .error ("Unknown job type: " ++ inp.jobType)]
    ∧ (runPythonJob t0 inp).final.logs.length = 2
    ∧ (runPythonJob t0 inp).states.length = 2
    ∧ (runPythonJob t0 inp).callbacks.length = 1 := by
  refine ⟨?_, ?_, ?_, ?_, ?_⟩ <;> simp [runPythonJob, h, stepUnknownType, submitJob]

/-- Counterexample to C3 as stated: at the concrete unknown-type submission
the resulting record ends failed but carries two log entries, not exactly
one, and its status history is running then failed rather than going
straight to failed. -/
theorem submit_unknown_type_counterexample :
    (runPythonJob 0 unknownTypeInput).final.status = .failed
    ∧ (runPythonJob 0 unknownTypeInput).final.logs.length = 2
    ∧ ¬(runPythonJob 0 unknownTypeInput).final.logs.length = 1
    ∧ (runPythonJob 0 unknownTypeInput).states.map Job.status = [.running, .failed] := by
  exact ⟨rfl, rfl, by decide, by decide⟩

/-- Witness instantiating the amended unknown-type theorem at the concrete
submission unknownTypeInput. -/
theorem submit_unknown_type_amended_witness :
    scriptMap unknownTypeInput.jobType = none
    ∧ (runPythonJob 0 unknownTypeInput).states.map Job.status = [.running, .failed]
    ∧ (runPythonJob 0 unknownTypeInput).final.logs.length = 2 := by
  have h := submit_unknown_type_amended 0 unknownTypeInput rfl
  exact ⟨rfl, h.1, h.2.2.1⟩


/-- C4 (amended). With the stdout arriving as the chunks "he" then
"llo" plus a newline, the backend appends two separate info entries with
messages "he" and "llo": each chunk is split on newlines by itself, with no
buffering of partial lines across chunks, so no entry with the assembled
message hello exists. -/
theorem stdout_chunking_amended (t0 : Nat) (inp : RunInput) (s : String)
    (hmap : scriptMap inp.jobType = some s) (hex : inp.scriptExists = true)
    (hev : inp.events = [.out "he", .out "llo\n"]) (hcode : inp.exitCode = 0) :
    (runPythonJob t0 inp).final.logs =
      [mkEntry t0 .info "Job started",
       mkEntry (t0 + 1) .info ("Executing " ++ s ++ "..."),
       mkEntry (t0 + 2) .info "he",
       mkEntry (t0 + 3) .info "llo",
       mkEntry (t0 + 4) .info "Job completed successfully"] := by
  simp only [runPythonJob, hmap, hex, hev, hcode]
  rfl

/-- Counterexample to C4 as stated: at the concrete run whose stdout arrives
as "he" then "llo" plus a newline, the final log list has five entries (two
from the chunks), none of which carries the assembled message hello, and
exactly one carries the partial message he. -/
theorem stdout_chunking_counterexample :
    (runPythonJob 0 chunkPairInput).final.logs.length = 5
    ∧ (runPythonJob 0 chunkPairInput).final.logs.all
        (fun j => !jsonMsgIs j "hello") = true
    ∧ (runPythonJob 0 chunkPairInput).final.logs.countP
        (fun j => jsonMsgIs j "he") = 1
    ∧ (runPythonJob 0 chunkPairInput).final.logs.countP
        (fun j => jsonMsgIs j "llo") = 1 := by
  exact ⟨rfl, rfl, rfl, rfl⟩

/-- Witness instantiating the amended chunking theorem at the concrete run
chunkPairInput. -/
theorem stdout_chunking_amended_witness :
    scriptMap chunkPairInput.jobType = some "gdb_extraction.py"
    ∧ chunkPairInput.scriptExists = true
    ∧ chunkPairInput.events = [.out "he", .out "llo\n"]
    ∧ chunkPairInput.exitCode = 0
    ∧ (runPythonJob 0 chunkPairInput).final.logs =
      [mkEntry 0 .info "Job started",
       mkEntry 1 .info ("Executing " ++ "gdb_extraction.py" ++ "..."),
       mkEntry 2 .info "he",
       mkEntry 3 .info "llo",
       mkEntry 4 .info "Job completed successfully"] := by
  exact ⟨rfl, rfl, rfl, rfl,
    stdout_chunking_amended 0 chunkPairInput "gdb_extraction.py" rfl rfl rfl rfl⟩

/-- C5 (amended). For every run that spawns a process, the final log list is
the creation and progress entries, then per event: for a stdout chunk, one
entry per non-blank line, the JSON.parse value itself whenever the line is
valid JSON (whatever its shape, with no LogEntry-shape validation) and the
raw line wrapped as an info entry otherwise; for a stderr chunk, exactly one
error entry carrying the whole chunk (not one entry per line); and last the
synthesized close entry. -/
theorem output_parsing_amended (t0 : Nat) (inp : RunInput) (s : String)
    (hmap : scriptMap inp.jobType = some s) (hex : inp.scriptExists = true) :
    (runPythonJob t0 inp).final.logs =
      [mkEntry t0 .info "Job started", mkEntry (t0 + 1) .info ("Executing " ++ s ++ "...")]
      ++ eventsEntries (t0 + 2) inp.events
      ++ [closeEntry (t0 + 2 + inp.events.length) inp.exitCode] := by
  have hpre := procRun_final inp.events (t0 + 2)
    (stepExecuting (t0 + 1) s
      (submitJob t0 (resolveId inp.reqId inp.freshId) inp.jobType inp.config))
  simp only [runPythonJob, hmap, hex, if_true]
  by_cases h0 : inp.exitCode = 0
  · rw [stepClose, if_pos h0, hpre, closeEntry, if_pos h0]
    simp [stepExecuting, submitJob]
  · rw [stepClose, if_neg h0, hpre, closeEntry, if_neg h0]
    simp [stepExecuting, submitJob]

/-- Counterexample to C5 as stated: at the concrete run jsonLineInput the
stdout line 42 is valid JSON but not of the LogEntry shape, yet the backend
appends the bare JSON value 42 rather than wrapping the line as an info
entry; and the two-line stderr chunk produces a single error entry carrying
the whole chunk, not one entry per line (no entry has message a). -/
theorem output_parsing_counterexample :
    (runPythonJob 0 jsonLineInput).final.logs.length = 5
    ∧ (runPythonJob 0 jsonLineInput).final.logs[2]? = some (Json.num 42)
    ∧ isLogEntryShape (Json.num 42) = false
    ∧ Json.num 42 ≠ mkEntry 2 .info "42"
    ∧ (runPythonJob 0 jsonLineInput).final.logs[3]? = some (mkEntry 3 .error "a\nb\n")
    ∧ (runPythonJob 0 jsonLineInput).final.logs.all (fun j => !jsonMsgIs j "a") = true := by
  refine ⟨rfl, rfl, rfl, ?_, rfl, rfl⟩
  intro hcontra
  exact Json.noConfusion hcontra

/-- Witness instantiating the amended output-parsing theorem at the concrete
run jsonLineInput. -/
theorem output_parsing_amended_witness :
    scriptMap jsonLineInput.jobType = some "sde_conversion.py"
    ∧ jsonLineInput.scriptExists = true
    ∧ (runPythonJob 0 jsonLineInput).final.logs =
      [mkEntry 0 .info "Job started",
       mkEntry 1 .info ("Executing " ++ "sde_conversion.py" ++ "...")]
      ++ eventsEntries 2 jsonLineInput.events
      ++ [closeEntry (2 + jsonLineInput.events.length) jsonLineInput.exitCode] := by
  exact ⟨rfl, rfl, output_parsing_amended 0 jsonLineInput "sde_conversion.py" rfl rfl⟩

/-- Fetch attempts of one sendCallback invocation never exceed one: the
relay either skips (falsy URL) or issues a single POST, with no retry on any
outcome. -/
theorem sendCallback_attempts (u : Option String) (p : CallbackPayload) (fo : FetchOutcome) :
    (sendCallback u p fo).1.length ≤ 1 := by
  cases u with
  | none => simp [sendCallback]
  | some v => by_cases hv : v = "" <;> simp [sendCallback, hv]

/-- Fetch attempts of one sendCallback invocation do not depend on the fetch
outcome: a failed delivery is not retried. -/
theorem sendCallback_attempts_indep (u : Option String) (p : CallbackPayload)
    (fo fo2 : FetchOutcome) :
    (sendCallback u p fo).1 = (sendCallback u p fo2).1 := by
  cases u with
  | none => rfl
  | some v => by_cases hv : v = "" <;> simp [sendCallback, hv]

/-- Exactly one sendCallback invocation happens per run, carrying the final
record. -/
theorem runPythonJob_callbacks (t0 : Nat) (inp : RunInput) :
    (runPythonJob t0 inp).callbacks = [payloadOf (runPythonJob t0 inp).final] := by
  cases hmap : scriptMap inp.jobType with
  | none => simp [runPythonJob, hmap]
  | some s => by_cases hex : inp.scriptExists <;> simp [runPythonJob, hmap, hex]

/-- C6. The job record the whole-system run reports is the one the job
execution finalized, identical whatever the relay fetch outcome is (response
of any HTTP status, or a thrown and swallowed network error, and likewise
with no callback URL); at most one outbound POST is issued, and the set of
issued POSTs does not depend on the outcome, so delivery is attempted at
most once with no retry. sendCallback is a total function, so no exception
escapes it. -/
theorem relay_isolation (t0 : Nat) (inp : RunInput) (fo fo2 : FetchOutcome) :
    (systemRun t0 inp fo).1 = (runPythonJob t0 inp).final
    ∧ (systemRun t0 inp fo).1 = (systemRun t0 inp fo2).1
    ∧ (systemRun t0 inp fo).2.1.length ≤ 1
    ∧ (systemRun t0 inp fo).2.1 = (systemRun t0 inp fo2).2.1
    ∧ (runPythonJob t0 inp).callbacks.length = 1 := by
  refine ⟨rfl, rfl, ?_, ?_, ?_⟩
  · simp only [systemRun, runPythonJob_callbacks, List.map_cons, List.map_nil,
      List.flatten_cons, List.flatten_nil, List.append_nil]
    exact sendCallback_attempts _ _ _
  · simp only [systemRun, runPythonJob_callbacks, List.map_cons, List.map_nil,
      List.flatten_cons, List.flatten_nil, List.append_nil]
    exact sendCallback_attempts_indep _ _ _ _
  · rw [runPythonJob_callbacks]
    rfl

/-- Antisymmetry of the lexicographic comparison: swapping the arguments
negates the result. -/
theorem lexCmp_swap (a : List Char) : ∀ b, lexCmp b a = -lexCmp a b := by
  induction a with
  | nil => intro b; cases b <;> simp [lexCmp]
  | cons x as ih =>
    intro b
    cases b with
    | nil => simp [lexCmp]
    | cons y bs =>
      rcases lt_trichotomy x y with h | h | h
      · simp [lexCmp, h, asymm h]
      · subst h
        simp [lexCmp, lt_irrefl, ih bs]
      · simp [lexCmp, h, asymm h]

/-- Transitivity of the nonpositive side of the lexicographic comparison. -/
theorem lexCmp_le_trans (a : List Char) :
    ∀ b c, lexCmp a b ≤ 0 → lexCmp b c ≤ 0 → lexCmp a c ≤ 0 := by
  induction a with
  | nil => intro b c _ _; cases c <;> simp [lexCmp]
  | cons x as ih =>
    intro b c h1 h2
    cases b with
    | nil => simp [lexCmp] at h1
    | cons y bs =>
      cases c with
      | nil => simp [lexCmp] at h2
      | cons z cs =>
        simp only [lexCmp] at h1 h2 ⊢
        rcases lt_trichotomy x y with hxy | hxy | hxy
        · rcases lt_trichotomy y z with hyz | hyz | hyz
          · rw [if_pos (lt_trans hxy hyz)]
            norm_num
          · subst hyz
            rw [if_pos hxy]
            norm_num
          · rw [if_neg (asymm hyz), if_pos hyz] at h2
            norm_num at h2
        · subst hxy
          rw [if_neg (lt_irrefl x), if_neg (lt_irrefl x)] at h1
          rcases lt_trichotomy x z with hxz | hxz | hxz
          · rw [if_pos hxz]
            norm_num
          · subst hxz
            rw [if_neg (lt_irrefl x), if_neg (lt_irrefl x)] at h2 ⊢
            exact ih bs cs h1 h2
          · rw [if_neg (asymm hxz), if_pos hxz] at h2
            norm_num at h2
        · rw [if_neg (asymm hxy), if_pos hxy] at h1
          norm_num at h1

instance : IsTotal BrowseItem browseLe := by
  constructor
  intro a b
  unfold browseLe browseCmp
  by_cases ha : a.type = "folder" <;> by_cases hb : b.type = "folder" <;> simp [ha, hb]
  all_goals
    rcases le_or_lt (lexCmp a.name.data b.name.data) 0 with h | h
  all_goals try exact Or.inl h
  all_goals right
  all_goals rw [lexCmp_swap]
  all_goals omega

instance : IsTrans BrowseItem browseLe := by
  constructor
  intro a b c h1 h2
  unfold browseLe browseCmp at h1 h2 ⊢
  by_cases ha : a.type = "folder" <;> by_cases hb : b.type = "folder" <;>
    by_cases hc : c.type = "folder" <;> simp [ha, hb] at h1 <;> simp [hb, hc] at h2 <;>
    simp [ha, hc] <;>
    try exact lexCmp_le_trans _ _ _ h1 h2

/-- C9 (amended). The browse response consists exactly of the kept entries
(the filter keeps, for a gdb request, directories and .gdb-suffixed names;
for an sde request, .sde-suffixed names; for a folder request, directories;
otherwise everything), each classified by suffix first (gdb, then sde, then
folder for directories, else file) - so an entry of a kind other than the
requested one can appear; and the response is sorted by the comparator that
puts folder-classified entries (not all directories) first and then compares
names, stably. -/
theorem browse_classify_sort_amended (base : String) (reqType : Option String)
    (items : List FsEntry) :
    (browseRun base reqType items).Perm
      ((items.filter (browseKeep reqType)).map (browseItemOf base))
    ∧ List.Sorted browseLe (browseRun base reqType items) :=
  ⟨List.perm_insertionSort browseLe _, List.sorted_insertionSort browseLe _⟩

/-- Counterexample to C9 as stated: a gdb request over a listing with one
plain directory returns that directory classified folder, so the result is
not filtered to the requested gdb kind; and with no requested kind, a
directory named with the .gdb suffix is classified gdb and sorts after a
plain file, so directories do not come first. -/
theorem browse_classify_sort_counterexample :
    browseRun "/r" (some "gdb") [⟨"docs", true⟩] = [⟨"docs", "/r/docs", "folder"⟩]
    ∧ ¬("folder" = "gdb")
    ∧ browseRun "/r" none [⟨"b.gdb", true⟩, ⟨"a.txt", false⟩]
      = [⟨"a.txt", "/r/a.txt", "file"⟩, ⟨"b.gdb", "/r/b.gdb", "gdb"⟩]
    ∧ (⟨"b.gdb", true⟩ : FsEntry).isDir = true
    ∧ (⟨"a.txt", false⟩ : FsEntry).isDir = false := by
  exact ⟨by decide, by decide, by decide, rfl, rfl⟩
